import Mathlib

/-!
Shallow embedding of the market-analysis pipeline of this repository
(scripts/python/market_analyzer.py together with the history store of
scripts/python/data_persistence.py).

Modelling conventions:
* Python float arithmetic is modelled exactly over the rationals; the one
  irrational operation (the float square root inside the competitiveness
  score) is modelled over the reals.
* Python round(x, 2) is modelled by round2, rounding half away from zero
  upward (Mathlib round); every concrete value appearing in a theorem below
  is kept away from .xx5 ties, so no statement depends on the tie convention.
* A Python dict is modelled as an association list in insertion order
  (Python dicts preserve insertion order).
* The untrusted upstream JSON items are modelled by RawItem: the nested
  price extraction float(item["price"]["amount"]) is summarized by PyPrice
  (the exceptions KeyError / TypeError / ValueError all land in the two
  failing constructors), and the nested item["user"]["login"] access by an
  Option String that is none exactly when that access would raise.
* The sqlite table market_analyses is modelled by DB, a list of rows; the
  SELECT of get_historical_analyses is filter, sort by timestamp descending,
  take limit, exactly as the SQL reads.
-/

namespace MarketAnalyzer

/-- Python round(x, 2): rounding a rational to two decimal places. -/
def round2 (q : ℚ) : ℚ := (round (100 * q) : ℤ) / 100

/-- Rounding a real number to two decimal places (used only for the
competitiveness score, whose float square root is modelled over the reals). -/
noncomputable def round2R (x : ℝ) : ℝ := (round (100 * x) : ℤ) / 100

/-- Arithmetic mean of a list of prices, as pandas Series.mean computes it.
On the empty list this is 0/0 = 0 in ℚ; every use in the pipeline is guarded
by a non-emptiness test, mirroring the guards in the Python source. -/
def mean (l : List ℚ) : ℚ := l.sum / l.length

/-- Minimum of a price column (pandas Series.min); only used on non-empty
batches, totalized by 0 on the empty list. -/
def pmin : List ℚ → ℚ
  | [] => 0
  | x :: xs => xs.foldl min x

/-- Maximum of a price column (pandas Series.max); only used on non-empty
batches, totalized by 0 on the empty list. -/
def pmax : List ℚ → ℚ
  | [] => 0
  | x :: xs => xs.foldl max x

/-- Median of a price column (pandas Series.median): sort ascending, take the
middle element for odd length, the mean of the two middle elements for even
length. Only used on non-empty batches; indices are totalized with getD. -/
def median (l : List ℚ) : ℚ :=
  let s := List.insertionSort (fun a b : ℚ => a ≤ b) l
  let n := l.length
  if n % 2 = 1 then s.getD (n / 2) 0
  else (s.getD (n / 2 - 1) 0 + s.getD (n / 2) 0) / 2

/-- Number of distinct values in a column (pandas Series.nunique). -/
def nunique (l : List String) : ℕ := l.dedup.length

/-- Sample variance with ddof = 1, the square of pandas Series.std; only used
under the guard 1 < length from the source. -/
def sampleVar (l : List ℚ) : ℚ :=
  (l.map (fun p => (p - mean l) ^ 2)).sum / ((l.length : ℚ) - 1)

/-- The price standard deviation of market_analyzer.py line 52:
df["price"].std() if len(df) > 1 else 0. -/
noncomputable def priceStd (l : List ℚ) : ℝ :=
  if 1 < l.length then Real.sqrt ((sampleVar l : ℚ) : ℝ) else 0

/-- One normalized record, as built by the dict literal at
market_analyzer.py lines 140-145. -/
structure Record where
  price : ℚ
  brand : String
  condition : String
  seller_login : String
  deriving DecidableEq

/-- Outcome of evaluating float(item["price"]["amount"]) on one raw upstream
item: the key path may be absent or of the wrong shape (KeyError/TypeError),
the float coercion may fail (ValueError/TypeError), or it may produce a
numeric value, modelled as an exact rational. -/
inductive PyPrice where
  | missing : PyPrice
  | notNumeric : PyPrice
  | val (q : ℚ) : PyPrice
  deriving DecidableEq

/-- One untrusted raw item from the upstream API, reduced to the four field
accesses performed by the normalization loop (market_analyzer.py 138-147).
seller_login is none exactly when item["user"]["login"] would raise. -/
structure RawItem where
  price : PyPrice
  brand_title : Option String
  status : Option String
  seller_login : Option String
  deriving DecidableEq

/-- Body of the normalization loop (market_analyzer.py 139-147): build the
record dict, where any KeyError/TypeError/ValueError of the four accesses
makes the whole record fail; brand and condition fall back to the
"Non spécifié" defaults via dict.get and never fail. -/
def normalizeItem (item : RawItem) : Option Record :=
  match item.price, item.seller_login with
  | PyPrice.val q, some login =>
      some ⟨q, item.brand_title.getD "Non spécifié", item.status.getD "Non spécifié", login⟩
  | _, _ => none

/-- Python str.lower(), modelled characterwise (structurally, so that the
kernel can evaluate it on literals). -/
def pyLower (s : String) : String := String.mk (s.data.map Char.toLower)

/-- normalize_brand_name of market_analyzer.py 15-25: a fixed typo-correction
table consulted on the lowercased word. -/
def normalize_brand_name (brand_name : String) : String :=
  let corrections : List (String × String) :=
    [("nik", "nike"), ("addidas", "adidas"), ("pumaa", "puma"), ("zaraa", "zara"),
     ("h&m", "h&m")]
  (corrections.lookup (pyLower brand_name)).getD brand_name

/-- Accumulator pass of pySplit: cur holds the characters of the current word
in reverse; whitespace closes a word, empty words are dropped, exactly the
semantics of Python str.split() with no separator argument. -/
def pySplitAux : List Char → List Char → List String
  | [], cur => if cur = [] then [] else [String.mk cur.reverse]
  | c :: cs, cur =>
    if c.isWhitespace then
      if cur = [] then pySplitAux cs [] else String.mk cur.reverse :: pySplitAux cs []
    else pySplitAux cs (c :: cur)

/-- Python str.split(): split on runs of whitespace, dropping empty words. -/
def pySplit (s : String) : List String := pySplitAux s.data []

/-- market_analyzer.py line 99: split the search text on whitespace, correct
each word, join with single spaces. -/
def normalizeSearchText (search_text : String) : String :=
  String.intercalate " " ((pySplit search_text).map normalize_brand_name)

/-- The priceAnalysis block (market_analyzer.py 164-169). -/
structure PriceAnalysis where
  min : ℚ
  max : ℚ
  average : ℚ
  median : ℚ
  deriving DecidableEq

/-- The summary block (market_analyzer.py 171-174). -/
structure Summary where
  itemsFound : ℕ
  sellersCount : ℕ
  deriving DecidableEq

/-- A value stored in the kpis dict: a number, the string sentinel "N/A", or
the real-valued competitiveness score. -/
inductive KpiVal where
  | num (q : ℚ) : KpiVal
  | na : KpiVal
  | realNum (x : ℝ) : KpiVal

/-- The full analysis result dict (market_analyzer.py 180-187); the two
distribution dicts and the kpis dict are association lists in insertion
order. -/
structure AnalysisResult where
  analysisTimestamp : String
  priceAnalysis : PriceAnalysis
  summary : Summary
  brandDistribution : List (String × ℕ)
  conditionDistribution : List (String × ℕ)
  kpis : List (String × KpiVal)

/-- One row of the sqlite table market_analyses (data_persistence.py 10-17);
analysis_data holds the JSON-serialized analysis result. -/
structure DBRow where
  search_text : String
  analysis_timestamp : String
  analysis_data : AnalysisResult

/-- The history store: the rows of the market_analyses table in insertion
order. -/
structure DB where
  rows : List DBRow

/-- save_analysis of data_persistence.py 21-30: INSERT one new row. -/
def save_analysis (db : DB) (search_text : String) (ts : String)
    (analysis_data : AnalysisResult) : DB :=
  ⟨db.rows ++ [⟨search_text, ts, analysis_data⟩]⟩

/-- One entry of the list returned by get_historical_analyses, reduced to the
only part the trend computation reads: the value found under
analysisData.priceAnalysis.average. It is none when any of the three nested
keys is absent (the defensive membership tests of market_analyzer.py line 64);
rows written by this system always carry the key. -/
structure HistEntry where
  avg? : Option ℚ

/-- get_historical_analyses of data_persistence.py 32-48: SELECT the rows for
the key, ORDER BY analysis_timestamp DESC, LIMIT, and expose the parsed
analysis data. -/
def get_historical_analyses (db : DB) (search_text : String) (limit : ℕ) : List HistEntry :=
  (((db.rows.filter (fun r => r.search_text == search_text)).insertionSort
      (fun a b => b.analysis_timestamp ≤ a.analysis_timestamp)).take limit).map
    (fun r => ⟨some r.analysis_data.priceAnalysis.average⟩)

/-- The 30-day price-trend KPI (market_analyzer.py 60-78): with more than one
snapshot, keep the averages present in the history (most-recent-first); with
more than one such average, compare the current mean against the last (i.e.
oldest) one, guarding against a non-positive denominator. -/
def tendancePrix30Jours (average_price : ℚ) (historical_analyses : List HistEntry) : ℚ :=
  if 1 < historical_analyses.length then
    let historical_prices := historical_analyses.filterMap HistEntry.avg?
    if 1 < historical_prices.length then
      let current_avg := average_price
      let oldest_avg := historical_prices.getLast?.getD 0
      if 0 < oldest_avg then round2 (((current_avg - oldest_avg) / oldest_avg) * 100)
      else 0
    else 0
  else 0

/-- The recommended-price KPI (market_analyzer.py 34-35): five percent below
the (unrounded) mean price, rounded to two decimals, when that mean is
positive. -/
def prixOptimalRecommande (average_price : ℚ) : ℚ :=
  if 0 < average_price then round2 (average_price * (95 / 100)) else 0

/-- The turnover-rate KPI (market_analyzer.py 40-44): the estimated total
listed is hard-coded as twice the batch size. -/
def tauxDeRotation (n : ℕ) : ℚ :=
  let total_listed_items_estimate := n * 2
  if 0 < total_listed_items_estimate then
    round2 (((n : ℚ) / ((total_listed_items_estimate : ℕ) : ℚ)) * 100)
  else 0

/-- The competitiveness-score KPI (market_analyzer.py 52-56). -/
noncomputable def scoreCompetitivite (prices : List ℚ) (num_sellers : ℕ) : ℝ :=
  if 0 < num_sellers then round2R ((1 / (priceStd prices + 1)) * (num_sellers : ℝ)) else 0

/-- calculate_kpis of market_analyzer.py 27-84: the kpis dict in its insertion
order; the history for the trend is fetched for the given key with limit 30. -/
noncomputable def calculate_kpis (df : List Record) (search_text : String) (db : DB) :
    List (String × KpiVal) :=
  let prices := df.map Record.price
  let average_price : ℚ := if df.isEmpty then 0 else mean prices
  let num_sellers : ℕ := if df.isEmpty then 0 else nunique (df.map Record.seller_login)
  let historical_analyses := get_historical_analyses db search_text 30
  [("prixOptimalRecommande", KpiVal.num (prixOptimalRecommande average_price)),
   ("tauxDeRotation", KpiVal.num (tauxDeRotation df.length)),
   ("partDeMarcheRelative", KpiVal.na),
   ("scoreCompetitivite", KpiVal.realNum (scoreCompetitivite prices num_sellers)),
   ("tendancePrix30Jours", KpiVal.num (tendancePrix30Jours average_price historical_analyses)),
   ("elasticitePrix", KpiVal.na)]

/-- First-seen deduplication helper: keep each label once, in the order of its
first appearance, skipping labels already seen. -/
def uniquesAux (seen : List String) : List String → List String
  | [] => []
  | x :: xs => if x ∈ seen then uniquesAux seen xs else x :: uniquesAux (x :: seen) xs

/-- The labels of a column in first-appearance order. -/
def uniques (l : List String) : List String := uniquesAux [] l

/-- Modelled from the spec: the presentation order of pandas
Series.value_counts, whose implementation is outside this repository. The
spec fixes it as descending count with ties broken by first appearance in the
input; vcLe base is exactly that order (strictly greater count first, equal
counts ordered by the index of the first occurrence of the label in base). -/
def vcLe (base : List String) (a b : String × ℕ) : Prop :=
  b.2 < a.2 ∨ (a.2 = b.2 ∧ base.indexOf a.1 ≤ base.indexOf b.1)

instance (base : List String) : DecidableRel (vcLe base) := fun a b => by
  unfold vcLe
  infer_instance

/-- Modelled from the spec: pandas Series.value_counts().to_dict() (the
implementation lives in pandas, outside this repository), per the spec a
group-by count sorted by descending count with ties in first-seen order. -/
def value_counts (base : List String) : List (String × ℕ) :=
  List.insertionSort (vcLe base) ((uniques base).map (fun s => (s, base.count s)))

/-- The empty result built when the upstream API returns no items
(market_analyzer.py 125-132). -/
def emptyAnalysis (ts : String) : AnalysisResult :=
  ⟨ts, ⟨0, 0, 0, 0⟩, ⟨0, 0⟩, [], [], []⟩

/-- The empty result built when every raw item fails normalization
(market_analyzer.py 150-157); a literal repeated in the source. -/
def emptyAnalysisNoRecords (ts : String) : AnalysisResult :=
  ⟨ts, ⟨0, 0, 0, 0⟩, ⟨0, 0⟩, [], [], []⟩

/-- The result dict built for a non-empty normalized batch
(market_analyzer.py 162-187). -/
noncomputable def buildResult (records : List Record) (search_text ts : String) (db : DB) :
    AnalysisResult :=
  let prices := records.map Record.price
  ⟨ts,
   ⟨pmin prices, pmax prices, round2 (mean prices), median prices⟩,
   ⟨records.length, nunique (records.map Record.seller_login)⟩,
   value_counts (records.map Record.brand),
   value_counts (records.map Record.condition),
   calculate_kpis records search_text db⟩

/-- analyze_market_by_product_name of market_analyzer.py 86-195, after the
HTTP fetch succeeded. The upstream call is abstracted as fetch, applied to
the typo-normalized search text (line 99); the wall clock is abstracted as
the ts argument (the source stamps the result and the stored row from the
clock at run time). The returned pair is the result dict together with the
history store after the final save_analysis, which is keyed by the original
search_text. -/
noncomputable def analyze_market_by_product_name (fetch : String → List RawItem)
    (ts : String) (db : DB) (search_text : String) : AnalysisResult × DB :=
  let normalized_search_text := normalizeSearchText search_text
  let data := fetch normalized_search_text
  if data.isEmpty then
    (emptyAnalysis ts, save_analysis db search_text ts (emptyAnalysis ts))
  else
    let records := data.filterMap normalizeItem
    if records.isEmpty then
      (emptyAnalysisNoRecords ts, save_analysis db search_text ts (emptyAnalysisNoRecords ts))
    else
      (buildResult records search_text ts db,
       save_analysis db search_text ts (buildResult records search_text ts db))

/-! Helper lemmas. -/

/-- Evaluation rule for round2 away from reduction (round does not reduce in
the kernel): round2 q is n/100 once 100q + 1/2 lies in [n, n+1). -/
theorem round2_eq_div (q : ℚ) (n : ℤ) (h1 : (n : ℚ) ≤ 100 * q + 1 / 2)
    (h2 : 100 * q + 1 / 2 < n + 1) : round2 q = (n : ℚ) / 100 := by
  unfold round2
  rw [round_eq]
  congr 1
  exact_mod_cast congrArg (fun z : ℤ => (z : ℚ)) (Int.floor_eq_iff.mpr ⟨h1, h2⟩)

theorem foldl_min_le_init (xs : List ℚ) (a : ℚ) : xs.foldl min a ≤ a := by
  induction xs generalizing a with
  | nil => exact le_refl a
  | cons x xs ih =>
    calc (x :: xs).foldl min a = xs.foldl min (min a x) := rfl
      _ ≤ min a x := ih _
      _ ≤ a := min_le_left _ _

theorem foldl_min_le_mem (xs : List ℚ) (a x : ℚ) (hx : x ∈ xs) : xs.foldl min a ≤ x := by
  induction xs generalizing a with
  | nil => cases hx
  | cons y ys ih =>
    rcases List.mem_cons.mp hx with rfl | hmem
    · calc (x :: ys).foldl min a = ys.foldl min (min a x) := rfl
        _ ≤ min a x := foldl_min_le_init _ _
        _ ≤ x := min_le_right _ _
    · exact ih _ hmem

theorem init_le_foldl_max (xs : List ℚ) (a : ℚ) : a ≤ xs.foldl max a := by
  induction xs generalizing a with
  | nil => exact le_refl a
  | cons x xs ih =>
    calc a ≤ max a x := le_max_left _ _
      _ ≤ xs.foldl max (max a x) := ih _
      _ = (x :: xs).foldl max a := rfl

theorem mem_le_foldl_max (xs : List ℚ) (a x : ℚ) (hx : x ∈ xs) : x ≤ xs.foldl max a := by
  induction xs generalizing a with
  | nil => cases hx
  | cons y ys ih =>
    rcases List.mem_cons.mp hx with rfl | hmem
    · calc x ≤ max a x := le_max_right _ _
        _ ≤ ys.foldl max (max a x) := init_le_foldl_max _ _
        _ = (x :: ys).foldl max a := rfl
    · exact ih _ hmem

theorem pmin_le_mem (l : List ℚ) (x : ℚ) (hx : x ∈ l) : pmin l ≤ x := by
  cases l with
  | nil => cases hx
  | cons y ys =>
    rcases List.mem_cons.mp hx with rfl | hmem
    · exact foldl_min_le_init ys x
    · exact foldl_min_le_mem ys y x hmem

theorem mem_le_pmax (l : List ℚ) (x : ℚ) (hx : x ∈ l) : x ≤ pmax l := by
  cases l with
  | nil => cases hx
  | cons y ys =>
    rcases List.mem_cons.mp hx with rfl | hmem
    · exact init_le_foldl_max ys x
    · exact mem_le_foldl_max ys y x hmem

theorem median_between (l : List ℚ) (h : l ≠ []) : pmin l ≤ median l ∧ median l ≤ pmax l := by
  have hpos : 0 < l.length := List.length_pos.mpr h
  have hperm := List.perm_insertionSort (fun a b : ℚ => a ≤ b) l
  have hlen : (List.insertionSort (fun a b : ℚ => a ≤ b) l).length = l.length :=
    hperm.length_eq
  have hmem : ∀ i, i < l.length →
      (List.insertionSort (fun a b : ℚ => a ≤ b) l).getD i 0 ∈ l := by
    intro i hi
    have hi2 : i < (List.insertionSort (fun a b : ℚ => a ≤ b) l).length := hlen ▸ hi
    rw [List.getD_eq_getElem _ 0 hi2]
    exact hperm.mem_iff.mp (List.getElem_mem hi2)
  unfold median
  by_cases hodd : l.length % 2 = 1
  · have hi : l.length / 2 < l.length := Nat.div_lt_self hpos one_lt_two
    simp only [hodd, if_pos]
    exact ⟨pmin_le_mem l _ (hmem _ hi), mem_le_pmax l _ (hmem _ hi)⟩
  · have h2 : 2 ≤ l.length := by omega
    have hi1 : l.length / 2 - 1 < l.length := by omega
    have hi2 : l.length / 2 < l.length := Nat.div_lt_self hpos one_lt_two
    simp only [hodd, if_neg, ite_false]
    have ha := hmem _ hi1
    have hb := hmem _ hi2
    constructor
    · have h1 := pmin_le_mem l _ ha
      have h2 := pmin_le_mem l _ hb
      linarith
    · have h1 := mem_le_pmax l _ ha
      have h2 := mem_le_pmax l _ hb
      linarith

/-- The two empty-result literals of the source coincide. -/
theorem emptyAnalysis_eq (ts : String) : emptyAnalysis ts = emptyAnalysisNoRecords ts := rfl

/-- Branch lemma: when the normalized batch is empty (covering both the
no-data path and the all-dropped path), the run returns the canonical empty
result and persists it under the original search text. -/
theorem analyze_of_batch_empty (fetch : String → List RawItem) (ts : String) (db : DB)
    (search_text : String)
    (h : (fetch (normalizeSearchText search_text)).filterMap normalizeItem = []) :
    analyze_market_by_product_name fetch ts db search_text =
      (emptyAnalysis ts, save_analysis db search_text ts (emptyAnalysis ts)) := by
  simp only [analyze_market_by_product_name, List.isEmpty_iff]
  by_cases hd : fetch (normalizeSearchText search_text) = []
  · simp [hd]
  · simp [hd, h, emptyAnalysis, emptyAnalysisNoRecords]

/-- Branch lemma: with a non-empty normalized batch the run returns the
aggregated result and persists it under the original search text. -/
theorem analyze_of_batch_nonempty (fetch : String → List RawItem) (ts : String) (db : DB)
    (search_text : String)
    (h : (fetch (normalizeSearchText search_text)).filterMap normalizeItem ≠ []) :
    analyze_market_by_product_name fetch ts db search_text =
      (buildResult ((fetch (normalizeSearchText search_text)).filterMap normalizeItem)
        search_text ts db,
       save_analysis db search_text ts
        (buildResult ((fetch (normalizeSearchText search_text)).filterMap normalizeItem)
          search_text ts db)) := by
  simp only [analyze_market_by_product_name, List.isEmpty_iff]
  have hd : fetch (normalizeSearchText search_text) ≠ [] := by
    intro hd
    rw [hd] at h
    simp at h
  simp [hd, h]

/-- In every branch, the stored row is the returned result keyed by the
original search text. -/
theorem analyze_snd (fetch : String → List RawItem) (ts : String) (db : DB)
    (search_text : String) :
    (analyze_market_by_product_name fetch ts db search_text).2 =
      save_analysis db search_text ts
        (analyze_market_by_product_name fetch ts db search_text).1 := by
  by_cases h : (fetch (normalizeSearchText search_text)).filterMap normalizeItem = []
  · rw [analyze_of_batch_empty fetch ts db search_text h]
  · rw [analyze_of_batch_nonempty fetch ts db search_text h]

/-- The kpis dict holds the recommended price under its key. -/
theorem lookup_prixOptimal (df : List Record) (key : String) (db : DB) :
    (calculate_kpis df key db).lookup "prixOptimalRecommande" =
      some (KpiVal.num (prixOptimalRecommande
        (if df.isEmpty then 0 else mean (df.map Record.price)))) := rfl

/-- The kpis dict holds the turnover rate under its key. -/
theorem lookup_taux (df : List Record) (key : String) (db : DB) :
    (calculate_kpis df key db).lookup "tauxDeRotation" =
      some (KpiVal.num (tauxDeRotation df.length)) := rfl

/-- The kpis dict holds the 30-day trend under its key, computed from the
history fetched for the same key with limit 30. -/
theorem lookup_trend (df : List Record) (key : String) (db : DB) :
    (calculate_kpis df key db).lookup "tendancePrix30Jours" =
      some (KpiVal.num (tendancePrix30Jours
        (if df.isEmpty then 0 else mean (df.map Record.price))
        (get_historical_analyses db key 30))) := rfl

/-- An item whose seller login is absent is always dropped. -/
theorem normalizeItem_of_no_seller (it : RawItem) (h : it.seller_login = none) :
    normalizeItem it = none := by
  cases hp : it.price <;> simp [normalizeItem, h, hp]

/-- An item whose price fails to coerce is always dropped. -/
theorem normalizeItem_of_bad_price (it : RawItem)
    (h : it.price = PyPrice.missing ∨ it.price = PyPrice.notNumeric) :
    normalizeItem it = none := by
  cases hs : it.seller_login <;> rcases h with h | h <;> simp [normalizeItem, h, hs]

theorem mem_uniquesAux (seen l : List String) (x : String) :
    x ∈ uniquesAux seen l ↔ x ∈ l ∧ x ∉ seen := by
  induction l generalizing seen with
  | nil => simp [uniquesAux]
  | cons y ys ih =>
    by_cases hy : y ∈ seen
    · simp only [uniquesAux, if_pos hy, ih, List.mem_cons]
      constructor
      · exact fun ⟨h1, h2⟩ => ⟨Or.inr h1, h2⟩
      · rintro ⟨(rfl | h1), h2⟩
        · exact absurd hy h2
        · exact ⟨h1, h2⟩
    · simp only [uniquesAux, if_neg hy, List.mem_cons, ih]
      constructor
      · rintro (rfl | ⟨h1, h2⟩)
        · exact ⟨Or.inl rfl, hy⟩
        · exact ⟨Or.inr h1, fun hs => h2 (Or.inr hs)⟩
      · rintro ⟨(rfl | h1), h2⟩
        · exact Or.inl rfl
        · by_cases hxy : x = y
          · exact Or.inl hxy
          · exact Or.inr ⟨h1, by simp [List.mem_cons, hxy, h2]⟩

theorem nodup_uniquesAux (seen l : List String) : (uniquesAux seen l).Nodup := by
  induction l generalizing seen with
  | nil => simp [uniquesAux]
  | cons y ys ih =>
    by_cases hy : y ∈ seen
    · simpa [uniquesAux, if_pos hy] using ih seen
    · simp only [uniquesAux, if_neg hy, List.nodup_cons]
      refine ⟨fun hmem => ?_, ih _⟩
      exact ((mem_uniquesAux _ _ _).mp hmem).2 (List.mem_cons_self _ _)

theorem mem_uniques (l : List String) (x : String) : x ∈ uniques l ↔ x ∈ l := by
  simp [uniques, mem_uniquesAux]

theorem nodup_uniques (l : List String) : (uniques l).Nodup := nodup_uniquesAux [] l

instance (base : List String) : IsTotal (String × ℕ) (vcLe base) :=
  ⟨by intro a b; unfold vcLe; omega⟩

instance (base : List String) : IsTrans (String × ℕ) (vcLe base) :=
  ⟨by intro a b c hab hbc; unfold vcLe at hab hbc ⊢; omega⟩

theorem value_counts_perm (base : List String) :
    (value_counts base).Perm ((uniques base).map (fun s => (s, base.count s))) :=
  List.perm_insertionSort _ _

theorem mem_value_counts (base : List String) (p : String × ℕ) :
    p ∈ value_counts base ↔ p.1 ∈ base ∧ p.2 = base.count p.1 := by
  rw [(value_counts_perm base).mem_iff]
  simp only [List.mem_map]
  constructor
  · rintro ⟨s, hs, rfl⟩
    exact ⟨(mem_uniques base s).mp hs, rfl⟩
  · rintro ⟨h1, h2⟩
    exact ⟨p.1, (mem_uniques base p.1).mpr h1, by rw [← h2]⟩

theorem value_counts_sorted (base : List String) :
    (value_counts base).Pairwise (vcLe base) :=
  List.sorted_insertionSort _ _

theorem value_counts_keys_nodup (base : List String) :
    ((value_counts base).map Prod.fst).Nodup := by
  have hperm := (value_counts_perm base).map Prod.fst
  rw [hperm.nodup_iff, List.map_map]
  have hid : (Prod.fst ∘ fun s : String => (s, base.count s)) = id := rfl
  rw [hid, List.map_id]
  exact nodup_uniques base

/-! Claim theorems. -/

/-- C1: for every analysis run whose normalized batch is empty — whether the
upstream fetch returned zero items or every raw item was dropped during
normalization — analyze_market_by_product_name returns the canonical empty
result (priceAnalysis all zero, summary itemsFound = 0 and sellersCount = 0,
empty brand and condition distributions, kpis the empty mapping with no
sentinel keys), the two paths produce this exact same shape, and the empty
result is still persisted as a snapshot. -/
theorem empty_batch_canonical (fetch : String → List RawItem) (ts : String) (db : DB)
    (search_text : String)
    (h : (fetch (normalizeSearchText search_text)).filterMap normalizeItem = []) :
    (analyze_market_by_product_name fetch ts db search_text).1 = emptyAnalysis ts ∧
    emptyAnalysis ts = emptyAnalysisNoRecords ts ∧
    (emptyAnalysis ts).priceAnalysis = ⟨0, 0, 0, 0⟩ ∧
    (emptyAnalysis ts).summary = ⟨0, 0⟩ ∧
    (emptyAnalysis ts).brandDistribution = [] ∧
    (emptyAnalysis ts).conditionDistribution = [] ∧
    (emptyAnalysis ts).kpis = [] ∧
    (analyze_market_by_product_name fetch ts db search_text).2 =
      save_analysis db search_text ts (emptyAnalysis ts) := by
  have hmain := analyze_of_batch_empty fetch ts db search_text h
  exact ⟨by rw [hmain], rfl, rfl, rfl, rfl, rfl, rfl, by rw [hmain]⟩

/-- Witness for C1: a fetch returning zero items, evaluated concretely. -/
theorem empty_batch_canonical_witness :
    (analyze_market_by_product_name (fun _ => []) "2024-01-01T00:00:00+00:00" ⟨[]⟩ "nike").1 =
      emptyAnalysis "2024-01-01T00:00:00+00:00" ∧
    (analyze_market_by_product_name (fun _ => []) "2024-01-01T00:00:00+00:00" ⟨[]⟩ "nike").2 =
      save_analysis ⟨[]⟩ "nike" "2024-01-01T00:00:00+00:00"
        (emptyAnalysis "2024-01-01T00:00:00+00:00") :=
  ⟨(empty_batch_canonical (fun _ => []) "2024-01-01T00:00:00+00:00" ⟨[]⟩ "nike" rfl).1,
   (empty_batch_canonical (fun _ => []) "2024-01-01T00:00:00+00:00" ⟨[]⟩ "nike"
      rfl).2.2.2.2.2.2.2⟩

/-- C2: the trend KPI needs at least 2 historical average-price points and is
0 otherwise; with enough history it is
(current_average - oldest_average) / oldest_average * 100 rounded to two
decimals, the oldest average being the last element of the limit-bounded
descending-ordered history after dropping entries without an average, and it
is 0 when that oldest average is 0; the kpis dict exposes exactly this value,
computed over the history fetched for the same key with limit 30. -/
theorem trend_kpi (average_price : ℚ) (hist : List HistEntry) :
    ((hist.filterMap HistEntry.avg?).length ≤ 1 →
      tendancePrix30Jours average_price hist = 0) ∧
    (2 ≤ (hist.filterMap HistEntry.avg?).length →
      (0 < (hist.filterMap HistEntry.avg?).getLast?.getD 0 →
        tendancePrix30Jours average_price hist =
          round2 (((average_price - (hist.filterMap HistEntry.avg?).getLast?.getD 0) /
            (hist.filterMap HistEntry.avg?).getLast?.getD 0) * 100)) ∧
      ((hist.filterMap HistEntry.avg?).getLast?.getD 0 = 0 →
        tendancePrix30Jours average_price hist = 0)) ∧
    (∀ (df : List Record) (key : String) (db : DB),
      (calculate_kpis df key db).lookup "tendancePrix30Jours" =
        some (KpiVal.num (tendancePrix30Jours
          (if df.isEmpty then 0 else mean (df.map Record.price))
          (get_historical_analyses db key 30)))) := by
  refine ⟨?_, ?_, fun df key db => lookup_trend df key db⟩
  · intro hle
    simp only [tendancePrix30Jours]
    by_cases h1 : 1 < hist.length
    · rw [if_pos h1, if_neg (by omega)]
    · rw [if_neg h1]
  · intro h2
    have hh : 1 < hist.length := by
      have := List.length_filterMap_le HistEntry.avg? hist
      omega
    simp only [tendancePrix30Jours]
    rw [if_pos hh, if_pos (by omega : 1 < (hist.filterMap HistEntry.avg?).length)]
    constructor
    · intro hpos
      rw [if_pos hpos]
    · intro hzero
      rw [hzero, if_neg (lt_irrefl 0)]

/-- Witness for C2: one prior snapshot gives trend 0; with two snapshots
(current mean 20, oldest average 10) the trend is exactly 100. -/
theorem trend_kpi_witness :
    ((([⟨some 20⟩] : List HistEntry).filterMap HistEntry.avg?).length ≤ 1 ∧
      tendancePrix30Jours 20 [⟨some 20⟩] = 0) ∧
    (2 ≤ (([⟨some 20⟩, ⟨some 10⟩] : List HistEntry).filterMap HistEntry.avg?).length ∧
      tendancePrix30Jours 20 [⟨some 20⟩, ⟨some 10⟩] = 100) := by
  refine ⟨⟨by simp, (trend_kpi 20 [⟨some 20⟩]).1 (by simp)⟩, ⟨by simp, ?_⟩⟩
  have hmain := ((trend_kpi 20 [⟨some 20⟩, ⟨some 10⟩]).2.1 (by simp)).1 (by decide)
  have hX : (([⟨some 20⟩, ⟨some 10⟩] : List HistEntry).filterMap HistEntry.avg?).getLast?.getD 0
      = 10 := rfl
  rw [hX] at hmain
  have harg : ((20 - (10 : ℚ)) / 10) * 100 = 100 := by norm_num
  rw [harg] at hmain
  rw [hmain, round2_eq_div 100 10000 (by norm_num) (by norm_num)]
  norm_num

/-- C9: the turnover-rate KPI equals exactly 50 for every non-empty batch,
independent of the record contents (the estimated total listed is hard-coded
as twice the batch size), and equals 0 exactly for the empty batch. -/
theorem turnover_constant (df : List Record) (key : String) (db : DB) :
    (df ≠ [] → (calculate_kpis df key db).lookup "tauxDeRotation" =
      some (KpiVal.num 50)) ∧
    (df = [] → (calculate_kpis df key db).lookup "tauxDeRotation" =
      some (KpiVal.num 0)) := by
  have hl := lookup_taux df key db
  constructor
  · intro h
    rw [hl]
    have hpos : 0 < df.length := List.length_pos.mpr h
    have hval : tauxDeRotation df.length = 50 := by
      simp only [tauxDeRotation]
      rw [if_pos (by omega)]
      have hq : (df.length : ℚ) ≠ 0 := Nat.cast_ne_zero.mpr (by omega)
      have harg : ((df.length : ℚ) / ((df.length * 2 : ℕ) : ℚ)) * 100 = 50 := by
        push_cast
        field_simp
        ring
      rw [harg, round2_eq_div 50 5000 (by norm_num) (by norm_num)]
      norm_num
    rw [hval]
  · intro h
    subst h
    rw [hl]
    simp [tauxDeRotation]

/-- Witness for C9: a one-record batch has turnover rate 50. -/
theorem turnover_constant_witness :
    ([⟨10, "b", "c", "s"⟩] : List Record) ≠ [] ∧
    (calculate_kpis [⟨10, "b", "c", "s"⟩] "k" ⟨[]⟩).lookup "tauxDeRotation" =
      some (KpiVal.num 50) :=
  ⟨by simp, (turnover_constant [⟨10, "b", "c", "s"⟩] "k" ⟨[]⟩).1 (by simp)⟩

/-- C4 counterexample: for the one-record batch with price 1.0052 the code
derives the recommended price from the unrounded mean,
round2(1.0052 * 0.95) = 0.95, while the claim formula based on the
PriceAnalysis average round2(mean) = 1.01 gives round2(1.01 * 0.95) = 0.96;
the two disagree at this input. -/
theorem recommended_price_cex :
    (calculate_kpis [⟨2513/2500, "b", "c", "s"⟩] "k" ⟨[]⟩).lookup "prixOptimalRecommande" =
      some (KpiVal.num (19/20)) ∧
    (buildResult [⟨2513/2500, "b", "c", "s"⟩] "k" "t" ⟨[]⟩).priceAnalysis.average =
      round2 (mean [2513/2500]) ∧
    round2 (mean [2513/2500]) = 101/100 ∧
    round2 ((101/100) * (95/100)) = 24/25 ∧
    (19/20 : ℚ) ≠ 24/25 := by
  have hmean : mean [(2513/2500 : ℚ)] = 2513/2500 := by
    norm_num [mean]
  refine ⟨?_, rfl, ?_, ?_, by norm_num⟩
  · rw [lookup_prixOptimal]
    have hm : (if ([⟨2513/2500, "b", "c", "s"⟩] : List Record).isEmpty then (0 : ℚ)
        else mean (([⟨2513/2500, "b", "c", "s"⟩] : List Record).map Record.price)) =
        2513/2500 := by
      simpa using hmean
    rw [hm]
    have hv : prixOptimalRecommande (2513/2500) = 19/20 := by
      unfold prixOptimalRecommande
      rw [if_pos (by norm_num), round2_eq_div _ 95 (by norm_num) (by norm_num)]
      norm_num
    rw [hv]
  · rw [hmean, round2_eq_div _ 101 (by norm_num) (by norm_num)]
    norm_num
  · rw [round2_eq_div _ 96 (by norm_num) (by norm_num)]
    norm_num

/-- C4 amended: the recommended-price KPI equals round2 of 0.95 times the
unrounded arithmetic mean of the retained prices (not the 2-decimal
PriceAnalysis average) when that mean is positive, and 0 otherwise; for a
mean of 100 it is exactly 95. -/
theorem recommended_price_amended (df : List Record) (key : String) (db : DB)
    (h : df ≠ []) :
    (0 < mean (df.map Record.price) →
      (calculate_kpis df key db).lookup "prixOptimalRecommande" =
        some (KpiVal.num (round2 (mean (df.map Record.price) * (95/100))))) ∧
    (mean (df.map Record.price) ≤ 0 →
      (calculate_kpis df key db).lookup "prixOptimalRecommande" =
        some (KpiVal.num 0)) ∧
    (mean (df.map Record.price) = 100 →
      (calculate_kpis df key db).lookup "prixOptimalRecommande" =
        some (KpiVal.num 95)) := by
  have hl := lookup_prixOptimal df key db
  have hm : (if df.isEmpty then (0 : ℚ) else mean (df.map Record.price)) =
      mean (df.map Record.price) := by
    simp [List.isEmpty_iff, h]
  rw [hm] at hl
  refine ⟨?_, ?_, ?_⟩
  · intro hpos
    rw [hl]
    simp [prixOptimalRecommande, hpos]
  · intro hle
    rw [hl]
    simp [prixOptimalRecommande, not_lt.mpr hle]
  · intro h100
    rw [hl, h100]
    have hv : prixOptimalRecommande 100 = 95 := by
      unfold prixOptimalRecommande
      rw [if_pos (by norm_num)]
      have harg : (100 : ℚ) * (95/100) = 95 := by norm_num
      rw [harg, round2_eq_div _ 9500 (by norm_num) (by norm_num)]
      norm_num
    rw [hv]

/-- Witness for C4 amended: a one-record batch with price 100 has mean 100
and recommended price exactly 95. -/
theorem recommended_price_amended_witness :
    ([⟨100, "b", "c", "s"⟩] : List Record) ≠ [] ∧
    mean (([⟨100, "b", "c", "s"⟩] : List Record).map Record.price) = 100 ∧
    (calculate_kpis [⟨100, "b", "c", "s"⟩] "k" ⟨[]⟩).lookup "prixOptimalRecommande" =
      some (KpiVal.num 95) := by
  have hm : mean (([⟨100, "b", "c", "s"⟩] : List Record).map Record.price) = 100 := by
    norm_num [mean]
  exact ⟨by simp, hm,
    (recommended_price_amended [⟨100, "b", "c", "s"⟩] "k" ⟨[]⟩ (by simp)).2.2 hm⟩

/-- C5 counterexample: a raw item whose price field coerces to the float -5
is retained with a negative price, refuting the non-negativity invariant. -/
theorem normalizer_nonneg_cex :
    ([⟨PyPrice.val (-5), none, none, some "alice"⟩] : List RawItem).filterMap normalizeItem =
      [⟨-5, "Non spécifié", "Non spécifié", "alice"⟩] ∧
    (-5 : ℚ) < 0 :=
  ⟨rfl, by norm_num⟩

/-- C5 amended: every record retained by the normalizer carries exactly the
float-coerced value of its raw price field — with no sign restriction — and
the login of its seller; any raw item whose price fails float coercion or
whose seller login is absent is dropped from the batch rather than raising,
and the output is never longer than the input. -/
theorem normalizer_price_amended (l : List RawItem) (it : RawItem) :
    (∀ r ∈ l.filterMap normalizeItem, ∃ a ∈ l, a.price = PyPrice.val r.price ∧
      a.seller_login = some r.seller_login) ∧
    ((it.price = PyPrice.missing ∨ it.price = PyPrice.notNumeric ∨
        it.seller_login = none) → normalizeItem it = none) ∧
    (l.filterMap normalizeItem).length ≤ l.length := by
  refine ⟨?_, ?_, List.length_filterMap_le _ _⟩
  · intro r hr
    rcases List.mem_filterMap.mp hr with ⟨a, ha, hna⟩
    refine ⟨a, ha, ?_⟩
    cases hp : a.price with
    | val q =>
      cases hs : a.seller_login with
      | some login =>
        simp only [normalizeItem, hp, hs, Option.some.injEq] at hna
        rw [← hna]
        exact ⟨rfl, rfl⟩
      | none => simp [normalizeItem, hp, hs] at hna
    | missing =>
      cases hs : a.seller_login <;> simp [normalizeItem, hp, hs] at hna
    | notNumeric =>
      cases hs : a.seller_login <;> simp [normalizeItem, hp, hs] at hna
  · rintro (h | h | h)
    · exact normalizeItem_of_bad_price it (Or.inl h)
    · exact normalizeItem_of_bad_price it (Or.inr h)
    · exact normalizeItem_of_no_seller it h

/-- Witness for C5 amended: a retained record traces back to its raw item, a
price-less item is dropped, and lengths shrink accordingly. -/
theorem normalizer_price_amended_witness :
    (∀ r ∈ ([⟨PyPrice.val 7, some "b", none, some "s"⟩] : List RawItem).filterMap
        normalizeItem,
      ∃ a ∈ ([⟨PyPrice.val 7, some "b", none, some "s"⟩] : List RawItem),
        a.price = PyPrice.val r.price ∧ a.seller_login = some r.seller_login) ∧
    (normalizeItem ⟨PyPrice.missing, none, none, some "s"⟩ = none) := by
  refine ⟨(normalizer_price_amended ([⟨PyPrice.val 7, some "b", none, some "s"⟩] : List RawItem)
    (⟨PyPrice.missing, none, none, some "s"⟩ : RawItem)).1, ?_⟩
  exact (normalizer_price_amended ([⟨PyPrice.val 7, some "b", none, some "s"⟩] : List RawItem)
    (⟨PyPrice.missing, none, none, some "s"⟩ : RawItem)).2.1 (Or.inl rfl)

/-- C6: a per-record coercion failure drops only that record — removing it
from the batch leaves the rest of the normalization unchanged — the
normalizer is total with output no longer than input, and a batch where every
item lacks the seller login yields the canonical empty result (still
persisted), not a crash. -/
theorem normalizer_skips_single_records (l xs ys : List RawItem) (bad : RawItem)
    (fetch : String → List RawItem) (ts : String) (db : DB) (key : String) :
    ((l.filterMap normalizeItem).length ≤ l.length) ∧
    (normalizeItem bad = none →
      (xs ++ bad :: ys).filterMap normalizeItem = (xs ++ ys).filterMap normalizeItem) ∧
    ((∀ it ∈ fetch (normalizeSearchText key), it.seller_login = none) →
      (analyze_market_by_product_name fetch ts db key).1 = emptyAnalysis ts ∧
      (analyze_market_by_product_name fetch ts db key).2 =
        save_analysis db key ts (emptyAnalysis ts)) := by
  refine ⟨List.length_filterMap_le _ _, ?_, ?_⟩
  · intro hbad
    simp [List.filterMap_append, List.filterMap_cons, hbad]
  · intro hall
    have hempty : (fetch (normalizeSearchText key)).filterMap normalizeItem = [] := by
      rw [List.filterMap_eq_nil_iff]
      intro a ha
      exact normalizeItem_of_no_seller a (hall a ha)
    have hmain := analyze_of_batch_empty fetch ts db key hempty
    exact ⟨by rw [hmain], by rw [hmain]⟩

/-- Witness for C6: dropping a non-numeric-price record in the middle of a
batch, and a batch whose single item has no seller login. -/
theorem normalizer_skips_single_records_witness :
    ((([⟨PyPrice.val 3, none, none, some "a"⟩] : List RawItem) ++
        (⟨PyPrice.notNumeric, none, none, some "s"⟩ : RawItem) ::
          ([⟨PyPrice.val 4, none, none, some "b"⟩] : List RawItem)).filterMap normalizeItem =
      (([⟨PyPrice.val 3, none, none, some "a"⟩] : List RawItem) ++
        ([⟨PyPrice.val 4, none, none, some "b"⟩] : List RawItem)).filterMap normalizeItem) ∧
    (analyze_market_by_product_name (fun _ => [⟨PyPrice.val 5, none, none, none⟩]) "t" ⟨[]⟩
        "k").1 = emptyAnalysis "t" := by
  have h := normalizer_skips_single_records [] [⟨PyPrice.val 3, none, none, some "a"⟩]
    [⟨PyPrice.val 4, none, none, some "b"⟩] ⟨PyPrice.notNumeric, none, none, some "s"⟩
    (fun _ => [⟨PyPrice.val 5, none, none, none⟩]) "t" ⟨[]⟩ "k"
  exact ⟨h.2.1 rfl, (h.2.2 (by decide)).1⟩

/-- C3: for every non-empty normalized batch the returned PriceAnalysis
satisfies min ≤ median ≤ max; for an empty batch all four fields are zero. -/
theorem price_analysis_invariant (fetch : String → List RawItem) (ts : String) (db : DB)
    (key : String) :
    ((fetch (normalizeSearchText key)).filterMap normalizeItem = [] →
      (analyze_market_by_product_name fetch ts db key).1.priceAnalysis = ⟨0, 0, 0, 0⟩) ∧
    ((fetch (normalizeSearchText key)).filterMap normalizeItem ≠ [] →
      (analyze_market_by_product_name fetch ts db key).1.priceAnalysis.min ≤
        (analyze_market_by_product_name fetch ts db key).1.priceAnalysis.median ∧
      (analyze_market_by_product_name fetch ts db key).1.priceAnalysis.median ≤
        (analyze_market_by_product_name fetch ts db key).1.priceAnalysis.max) := by
  constructor
  · intro h
    rw [analyze_of_batch_empty fetch ts db key h]
    rfl
  · intro h
    rw [analyze_of_batch_nonempty fetch ts db key h]
    have hmap : ((fetch (normalizeSearchText key)).filterMap normalizeItem).map Record.price
        ≠ [] := by
      intro hc
      exact h (List.map_eq_nil_iff.mp hc)
    have hb := median_between _ hmap
    simp only [buildResult]
    exact ⟨hb.1, hb.2⟩

/-- Witness for C3 at a concrete two-record batch. -/
theorem price_analysis_invariant_witness :
    (((fun _ => [⟨PyPrice.val 10, some "Nike", some "new", some "a"⟩,
        ⟨PyPrice.val 30, some "Nike", some "used", some "b"⟩]) :
          String → List RawItem) (normalizeSearchText "nike")).filterMap normalizeItem ≠ [] ∧
    ((analyze_market_by_product_name
        (fun _ => [⟨PyPrice.val 10, some "Nike", some "new", some "a"⟩,
          ⟨PyPrice.val 30, some "Nike", some "used", some "b"⟩]) "t" ⟨[]⟩
        "nike").1.priceAnalysis.min ≤
      (analyze_market_by_product_name
        (fun _ => [⟨PyPrice.val 10, some "Nike", some "new", some "a"⟩,
          ⟨PyPrice.val 30, some "Nike", some "used", some "b"⟩]) "t" ⟨[]⟩
        "nike").1.priceAnalysis.median ∧
      (analyze_market_by_product_name
        (fun _ => [⟨PyPrice.val 10, some "Nike", some "new", some "a"⟩,
          ⟨PyPrice.val 30, some "Nike", some "used", some "b"⟩]) "t" ⟨[]⟩
        "nike").1.priceAnalysis.median ≤
      (analyze_market_by_product_name
        (fun _ => [⟨PyPrice.val 10, some "Nike", some "new", some "a"⟩,
          ⟨PyPrice.val 30, some "Nike", some "used", some "b"⟩]) "t" ⟨[]⟩
        "nike").1.priceAnalysis.max) :=
  ⟨by decide,
    (price_analysis_invariant
      (fun _ => [⟨PyPrice.val 10, some "Nike", some "new", some "a"⟩,
        ⟨PyPrice.val 30, some "Nike", some "used", some "b"⟩]) "t" ⟨[]⟩ "nike").2 (by decide)⟩

/-- C7: for every non-empty batch, out.brandDistribution (and likewise the
condition distribution) is the value-counts table of its column: each entry
pairs a label occurring in the column with its exact occurrence count, each
label appears once, and the entries are ordered by vcLe — strictly descending
count, with equal counts ordered by the first occurrence of the label in the
column (first-seen order). -/
theorem distributions_value_counts (fetch : String → List RawItem) (ts : String) (db : DB)
    (key : String)
    (h : (fetch (normalizeSearchText key)).filterMap normalizeItem ≠ []) :
    ((analyze_market_by_product_name fetch ts db key).1.brandDistribution =
      value_counts (((fetch (normalizeSearchText key)).filterMap normalizeItem).map
        Record.brand)) ∧
    (∀ p ∈ (analyze_market_by_product_name fetch ts db key).1.brandDistribution,
      p.1 ∈ ((fetch (normalizeSearchText key)).filterMap normalizeItem).map Record.brand ∧
      p.2 = (((fetch (normalizeSearchText key)).filterMap normalizeItem).map
        Record.brand).count p.1) ∧
    (∀ s ∈ ((fetch (normalizeSearchText key)).filterMap normalizeItem).map Record.brand,
      (s, (((fetch (normalizeSearchText key)).filterMap normalizeItem).map
        Record.brand).count s) ∈
        (analyze_market_by_product_name fetch ts db key).1.brandDistribution) ∧
    ((analyze_market_by_product_name fetch ts db key).1.brandDistribution.map
      Prod.fst).Nodup ∧
    (analyze_market_by_product_name fetch ts db key).1.brandDistribution.Pairwise
      (vcLe (((fetch (normalizeSearchText key)).filterMap normalizeItem).map Record.brand)) ∧
    ((analyze_market_by_product_name fetch ts db key).1.conditionDistribution =
      value_counts (((fetch (normalizeSearchText key)).filterMap normalizeItem).map
        Record.condition)) ∧
    (∀ p ∈ (analyze_market_by_product_name fetch ts db key).1.conditionDistribution,
      p.1 ∈ ((fetch (normalizeSearchText key)).filterMap normalizeItem).map
        Record.condition ∧
      p.2 = (((fetch (normalizeSearchText key)).filterMap normalizeItem).map
        Record.condition).count p.1) ∧
    ((analyze_market_by_product_name fetch ts db key).1.conditionDistribution.map
      Prod.fst).Nodup ∧
    (analyze_market_by_product_name fetch ts db key).1.conditionDistribution.Pairwise
      (vcLe (((fetch (normalizeSearchText key)).filterMap normalizeItem).map
        Record.condition)) := by
  rw [analyze_of_batch_nonempty fetch ts db key h]
  refine ⟨rfl, ?_, ?_, value_counts_keys_nodup _, value_counts_sorted _,
    rfl, ?_, value_counts_keys_nodup _, value_counts_sorted _⟩
  · intro p hp
    have := (mem_value_counts _ p).mp hp
    exact ⟨this.1, this.2⟩
  · intro s hs
    exact (mem_value_counts _ (s, _)).mpr ⟨hs, rfl⟩
  · intro p hp
    have := (mem_value_counts _ p).mp hp
    exact ⟨this.1, this.2⟩

/-- Witness for C7: a concrete batch with brands Adidas, Nike, Nike gives the
brand distribution [(Nike, 2), (Adidas, 1)]. -/
theorem distributions_value_counts_witness :
    (((fun _ => [⟨PyPrice.val 10, some "Adidas", some "new", some "a"⟩,
        ⟨PyPrice.val 20, some "Nike", some "new", some "b"⟩,
        ⟨PyPrice.val 30, some "Nike", some "used", some "c"⟩]) :
          String → List RawItem) (normalizeSearchText "shoes")).filterMap normalizeItem
      ≠ [] ∧
    (analyze_market_by_product_name
        (fun _ => [⟨PyPrice.val 10, some "Adidas", some "new", some "a"⟩,
          ⟨PyPrice.val 20, some "Nike", some "new", some "b"⟩,
          ⟨PyPrice.val 30, some "Nike", some "used", some "c"⟩]) "t" ⟨[]⟩
        "shoes").1.brandDistribution = [("Nike", 2), ("Adidas", 1)] := by
  refine ⟨by decide, ?_⟩
  rw [(distributions_value_counts
    (fun _ => [⟨PyPrice.val 10, some "Adidas", some "new", some "a"⟩,
      ⟨PyPrice.val 20, some "Nike", some "new", some "b"⟩,
      ⟨PyPrice.val 30, some "Nike", some "used", some "c"⟩]) "t" ⟨[]⟩ "shoes" (by decide)).1]
  decide

/-- C8: the aggregation is a deterministic function of the fetched batch —
two runs with identical fetch and key but different timestamps and history
stores produce identical priceAnalysis, summary, brandDistribution and
conditionDistribution blocks, while each result carries its own run
timestamp (and the trend KPI may read a different history store). -/
theorem aggregation_deterministic (fetch : String → List RawItem) (key : String)
    (ts1 ts2 : String) (db1 db2 : DB) :
    ((analyze_market_by_product_name fetch ts1 db1 key).1.priceAnalysis =
      (analyze_market_by_product_name fetch ts2 db2 key).1.priceAnalysis) ∧
    ((analyze_market_by_product_name fetch ts1 db1 key).1.summary =
      (analyze_market_by_product_name fetch ts2 db2 key).1.summary) ∧
    ((analyze_market_by_product_name fetch ts1 db1 key).1.brandDistribution =
      (analyze_market_by_product_name fetch ts2 db2 key).1.brandDistribution) ∧
    ((analyze_market_by_product_name fetch ts1 db1 key).1.conditionDistribution =
      (analyze_market_by_product_name fetch ts2 db2 key).1.conditionDistribution) ∧
    ((analyze_market_by_product_name fetch ts1 db1 key).1.analysisTimestamp = ts1) ∧
    ((analyze_market_by_product_name fetch ts2 db2 key).1.analysisTimestamp = ts2) := by
  by_cases h : (fetch (normalizeSearchText key)).filterMap normalizeItem = []
  · rw [analyze_of_batch_empty fetch ts1 db1 key h,
      analyze_of_batch_empty fetch ts2 db2 key h]
    exact ⟨rfl, rfl, rfl, rfl, rfl, rfl⟩
  · rw [analyze_of_batch_nonempty fetch ts1 db1 key h,
      analyze_of_batch_nonempty fetch ts2 db2 key h]
    exact ⟨rfl, rfl, rfl, rfl, rfl, rfl⟩

/-- C10: the upstream fetch uses the typo-normalized search text while the
snapshot save and the history query use the caller's original text: "nik" and
"nike" normalize to the same query, so runs under the two keys consume the
same upstream batch and agree on all aggregate blocks, yet each run appends
its snapshot under its own original key and leaves the other key's queryable
history untouched; the kpis of a run are computed against the run's own
original key. -/
theorem typo_keys_same_fetch_disjoint_histories :
    (normalizeSearchText "nik" = normalizeSearchText "nike") ∧
    (∀ (fetch : String → List RawItem) (ts : String) (db : DB),
      ((analyze_market_by_product_name fetch ts db "nik").1.priceAnalysis =
        (analyze_market_by_product_name fetch ts db "nike").1.priceAnalysis) ∧
      ((analyze_market_by_product_name fetch ts db "nik").1.summary =
        (analyze_market_by_product_name fetch ts db "nike").1.summary) ∧
      ((analyze_market_by_product_name fetch ts db "nik").1.brandDistribution =
        (analyze_market_by_product_name fetch ts db "nike").1.brandDistribution) ∧
      ((analyze_market_by_product_name fetch ts db "nik").1.conditionDistribution =
        (analyze_market_by_product_name fetch ts db "nike").1.conditionDistribution)) ∧
    (∀ (fetch : String → List RawItem) (ts : String) (db : DB),
      (analyze_market_by_product_name fetch ts db "nik").2.rows.map DBRow.search_text =
        db.rows.map DBRow.search_text ++ ["nik"]) ∧
    (∀ (fetch : String → List RawItem) (ts : String) (db : DB) (lim : ℕ),
      get_historical_analyses (analyze_market_by_product_name fetch ts db "nik").2
        "nike" lim = get_historical_analyses db "nike" lim) ∧
    (∀ (fetch : String → List RawItem) (ts : String) (db : DB) (lim : ℕ),
      get_historical_analyses (analyze_market_by_product_name fetch ts db "nike").2
        "nik" lim = get_historical_analyses db "nik" lim) ∧
    (∀ (fetch : String → List RawItem) (ts : String) (db : DB) (key : String),
      (fetch (normalizeSearchText key)).filterMap normalizeItem ≠ [] →
      (analyze_market_by_product_name fetch ts db key).1.kpis =
        calculate_kpis ((fetch (normalizeSearchText key)).filterMap normalizeItem) key db) := by
  have hnorm : normalizeSearchText "nik" = normalizeSearchText "nike" := by decide
  refine ⟨hnorm, ?_, ?_, ?_, ?_, ?_⟩
  · intro fetch ts db
    have hdata : (fetch (normalizeSearchText "nik")).filterMap normalizeItem =
        (fetch (normalizeSearchText "nike")).filterMap normalizeItem := by rw [hnorm]
    by_cases h : (fetch (normalizeSearchText "nike")).filterMap normalizeItem = []
    · rw [analyze_of_batch_empty fetch ts db "nik" (hdata.trans h),
        analyze_of_batch_empty fetch ts db "nike" h]
      exact ⟨rfl, rfl, rfl, rfl⟩
    · rw [analyze_of_batch_nonempty fetch ts db "nik" (fun hc => h (hdata.symm.trans hc)),
        analyze_of_batch_nonempty fetch ts db "nike" h, hdata]
      exact ⟨rfl, rfl, rfl, rfl⟩
  · intro fetch ts db
    rw [analyze_snd fetch ts db "nik"]
    simp [save_analysis]
  · intro fetch ts db lim
    rw [analyze_snd fetch ts db "nik"]
    have hb : (("nik" : String) == "nike") = false := by decide
    simp [get_historical_analyses, save_analysis, List.filter_append, hb]
  · intro fetch ts db lim
    rw [analyze_snd fetch ts db "nike"]
    have hb : (("nike" : String) == "nik") = false := by decide
    simp [get_historical_analyses, save_analysis, List.filter_append, hb]
  · intro fetch ts db key h
    rw [analyze_of_batch_nonempty fetch ts db key h]
    rfl

/-- Witness for C10: the kpis of a concrete non-empty run under "nik" are the
kpis computed for the key "nik" itself. -/
theorem typo_keys_witness :
    (((fun _ => [⟨PyPrice.val 8, none, none, some "x"⟩]) : String → List RawItem)
      (normalizeSearchText "nik")).filterMap normalizeItem ≠ [] ∧
    (analyze_market_by_product_name (fun _ => [⟨PyPrice.val 8, none, none, some "x"⟩])
        "t" ⟨[]⟩ "nik").1.kpis =
      calculate_kpis ((((fun _ => [⟨PyPrice.val 8, none, none, some "x"⟩]) :
          String → List RawItem) (normalizeSearchText "nik")).filterMap normalizeItem)
        "nik" ⟨[]⟩ :=
  ⟨by decide,
    typo_keys_same_fetch_disjoint_histories.2.2.2.2.2
      (fun _ => [⟨PyPrice.val 8, none, none, some "x"⟩]) "t" ⟨[]⟩ "nik" (by decide)⟩

end MarketAnalyzer
